import Mathlib

/-!
Verification of the PhoneDTMF Goertzel tone-detection engine
(src/src/PhoneDTMF.cpp) against its specification.

The embedding models C float values as real numbers, C integers as Nat or
Int, and the two hardware collaborators (analog sampler and millisecond
clock) as explicit inputs.  Each definition mirrors one function or loop of
the source file; line numbers in the doc comments refer to PhoneDTMF.cpp.
-/

namespace PhoneDTMF

/-- Modelled from the spec: the constant TONES lives in the missing header
PhoneDTMF.h; the spec fixes the ToneSet as a compile-time sequence of 8
frequencies, and the detection bitmask is 8 bits wide. -/
def TONES : ℕ := 8

/-- The fields of the PhoneDTMF object that the algorithms read and write
(floats as real numbers, integers as Int or Nat). -/
@[ext] structure State where
  afQ1 : Fin TONES → ℝ
  afQ2 : Fin TONES → ℝ
  afToneCoeff : Fin TONES → ℝ
  iAdcCentre : ℤ
  fBaseMagnitude : ℝ
  iCompensation : ℤ
  iRealFrequence : ℕ
  iSamplesCount : ℤ

/-- Body of the ProcessSample loop (lines 205-210) at tone index i: compute
Q0 from the current state of tone i, then shift the two accumulators. -/
noncomputable def processSampleTone (sample : ℤ) (st : State) (i : Fin TONES) : State :=
  let Q0 : ℝ := st.afToneCoeff i * st.afQ1 i - st.afQ2 i
      + ((sample : ℝ) - (st.iAdcCentre : ℝ))
  { st with
      afQ2 := Function.update st.afQ2 i (st.afQ1 i)
      afQ1 := Function.update st.afQ1 i Q0 }

/-- ProcessSample (lines 201-211): run the loop body over tone indices 0,
1, ..., TONES-1 in order. -/
noncomputable def ProcessSample (st : State) (sample : ℤ) : State :=
  (List.finRange TONES).foldl (processSampleTone sample) st

/-- Body of the ResetDTMF loop (lines 216-220) at tone index i. -/
def resetTone (st : State) (i : Fin TONES) : State :=
  { st with
      afQ2 := Function.update st.afQ2 i 0
      afQ1 := Function.update st.afQ1 i 0 }

/-- ResetDTMF (lines 214-221): zero both accumulators of every tone. -/
def ResetDTMF (st : State) : State :=
  (List.finRange TONES).foldl resetTone st

/-- The expression assigned to dtmf_mag[i] at line 165. -/
noncomputable def dtmfMagnitude (st : State) (i : Fin TONES) : ℝ :=
  Real.sqrt (st.afQ1 i * st.afQ1 i + st.afQ2 i * st.afQ2 i
    - st.afToneCoeff i * st.afQ1 i * st.afQ2 i)

/-- Body of the first loop of calculateMeasurement (lines 163-168); the
accumulator is the triple (dtmf_mag, midMag, maxMag). -/
noncomputable def measureTone (st : State) (acc : (Fin TONES → ℝ) × ℝ × ℝ)
    (i : Fin TONES) : (Fin TONES → ℝ) × ℝ × ℝ :=
  let m : ℝ := dtmfMagnitude st i
  (Function.update acc.1 i m, acc.2.1 + m, if acc.2.2 < m then m else acc.2.2)

/-- The first loop of calculateMeasurement with its initial values (lines
160-168): dtmf_mag starts as an uninitialized local array (modelled as the
zero function, every slot is overwritten), midMag starts at 0 and maxMag at
fBaseMagnitude times 3. -/
noncomputable def magLoop (st : State) : (Fin TONES → ℝ) × ℝ × ℝ :=
  (List.finRange TONES).foldl (measureTone st) (fun _ => 0, 0, st.fBaseMagnitude * 3)

/-- Threshold resolution of calculateMeasurement (lines 176-179): a negative
argument selects the automatic threshold, twice midMag divided by TONES. -/
noncomputable def resolveThreshold (st : State) (magnitude : ℝ) : ℝ :=
  if magnitude < 0 then ((magLoop st).2.1 / (TONES : ℝ)) * 2 else magnitude

/-- The bitmask loop of calculateMeasurement (lines 181-187). -/
noncomputable def maskLoop (dtmfMag : Fin TONES → ℝ) (magnitude : ℝ) : ℕ :=
  (List.finRange TONES).foldl
    (fun d i => if dtmfMag i > magnitude then d ||| (1 <<< (i : ℕ)) else d) 0

/-- What calculateMeasurement produces: the returned bitmask, the values
copied into the caller buffer pRet when one is supplied, and the object
state after the call. -/
structure MeasureResult where
  dtmf : ℕ
  pRet : Option (Fin TONES → ℝ)
  state : State

/-- calculateMeasurement (lines 158-190): run the magnitude loop, copy the
magnitudes out when a buffer is supplied (line 169-172), reset the
resonators (line 173), resolve the threshold and build the bitmask. -/
noncomputable def calculateMeasurement (st : State) (wantMags : Bool)
    (magnitude : ℝ) : MeasureResult :=
  let r := magLoop st
  { dtmf := maskLoop r.1 (resolveThreshold st magnitude)
    pRet := if wantMags then some r.1 else none
    state := ResetDTMF st }

/-- Modelled from the spec: DTMF_MAP lives in the missing header PhoneDTMF.h.
The SymbolTable maps 2 times TONES bit patterns to keypad characters; each
DTMF symbol combines one of the four row tones (bits 0-3) with one of the
four column tones (bits 4-7). -/
def DTMF_MAP : List ℕ :=
  [0x11, 0x21, 0x41, 0x81, 0x12, 0x22, 0x42, 0x82,
   0x14, 0x24, 0x44, 0x84, 0x18, 0x28, 0x48, 0x88]

/-- Modelled from the spec: DTMF_CHAR lives in the missing header
PhoneDTMF.h; the characters parallel to DTMF_MAP, keypad row by row. -/
def DTMF_CHAR : List Char :=
  ['1', '2', '3', 'A', '4', '5', '6', 'B',
   '7', '8', '9', 'C', '*', '0', '#', 'D']

/-- tone2char (lines 115-122): scan the table indices 0 to 2 times TONES
minus 1, return the character of the first exact pattern match, otherwise
the character 0. -/
def tone2char (dtmf : ℕ) : Char :=
  match (List.range (TONES * 2)).find? (fun j => dtmf == DTMF_MAP.getD j 0) with
  | some j => DTMF_CHAR.getD j (Char.ofNat 0)
  | none => Char.ofNat 0

/-- Unsigned 32-bit subtraction, for the expression maxFrequence - 150 at
line 70 (maxFrequence is a uint32_t, so the subtraction wraps modulo 2^32).
Faithful for b at most 2^32. -/
def u32sub (a b : ℕ) : ℕ := (a + 2 ^ 32 - b) % 2 ^ 32

/-- One compensation adjustment of the rate-adjustment loop (lines 69-70):
increment when the measured frequency is above maxFrequence and the delay is
below 200, then decrement when it is below maxFrequence - 150 and the delay
is positive. -/
def beginLoopStep (maxFrequence : ℕ) (freq : ℕ) (comp : ℤ) : ℤ :=
  let c1 : ℤ := if maxFrequence < freq ∧ comp < 200 then comp + 1 else comp
  if freq < u32sub maxFrequence 150 ∧ 0 < c1 then c1 - 1 else c1

/-- Abstraction of the sampler and clock collaborators across the
rate-adjustment loop: the n-th detect call of the loop measures a real
frequency and fills the magnitudes array. -/
abbrev Behaviour := ℕ → ℕ × (Fin TONES → ℝ)

/-- The do-while loop of begin (lines 64-71), run with explicit fuel since
the source loop has no iteration bound: state is (call index, compensation,
frequency measured before the call).  On exit it returns the call index at
which the fixed point was hit, the compensation, and the frequency and
magnitudes of that final call; none means the fuel ran out with the loop
still running. -/
def beginLoopRun (maxFrequence : ℕ) (b : Behaviour) :
    ℕ → ℕ → ℤ → ℕ → Option (ℕ × ℤ × ℕ × (Fin TONES → ℝ))
  | 0, _, _, _ => none
  | fuel + 1, n, comp, oldFreq =>
    let f := (b n).1
    let comp1 := beginLoopStep maxFrequence f comp
    if oldFreq = f then some (n, comp1, f, (b n).2)
    else beginLoopRun maxFrequence b fuel (n + 1) comp1 f

/-- The averaging of the magnitudes array into _fBaseMagnitude (lines
73-76): accumulate in a loop, then divide by TONES. -/
noncomputable def magAverage (m : Fin TONES → ℝ) : ℝ :=
  ((List.finRange TONES).foldl (fun acc j => acc + m j) 0) / (TONES : ℝ)

/-- The value of _fBaseMagnitude as begin computes it (lines 64-76): the
average of the magnitudes array as the rate-adjustment loop left it. -/
noncomputable def beginBaseMagnitude (maxFrequence : ℕ) (b : Behaviour)
    (fuel : ℕ) (comp0 : ℤ) (r0 : ℕ) : Option ℝ :=
  (beginLoopRun maxFrequence b fuel 0 comp0 r0).map (fun r => magAverage r.2.2.2)

/-- The compensation seed of begin (line 59): when the measured warm-up rate
exceeds maxFrequence, the float expression is truncated into the integer
field (the value is positive there, so truncation is the floor); otherwise
the constructor value 0 is kept.  Faithful for positive maxFrequence. -/
def beginCompSeed (maxFrequence : ℕ) (sampleFrequence : ℚ) : ℤ :=
  if (maxFrequence : ℚ) < sampleFrequence then
    ⌊((1000 / (maxFrequence : ℚ)) - (1000 / sampleFrequence)) * 1000⌋
  else 0

/-- The warm-up rate computation of begin (line 57), (1000.0f / t1) *
1000.0f, under IEEE semantics: division by a zero elapsed time yields a
non-finite value, modelled as none.  The source applies no guard before the
division. -/
def warmupSampleFrequence (t1 : ℕ) : Option ℚ :=
  if t1 = 0 then none else some ((1000 / (t1 : ℚ)) * 1000)

/-- The detect-block rate computation (line 108), 1.0f / ((fTemp / 1000.0f)
/ sampleCount), under IEEE semantics: a zero sample count makes the inner
quotient non-finite and a zero elapsed time makes the outer quotient
non-finite; both are modelled as none.  The source applies no guard. -/
def detectRealFrequence (fTemp : ℕ) (samplesCount : ℤ) : Option ℚ :=
  if samplesCount = 0 then none
  else if fTemp = 0 then none
  else some (1 / (((fTemp : ℚ) / 1000) / (samplesCount : ℚ)))

/-- A collaborator behaviour under which consecutive detect calls measure
alternating frequencies 7000 and 8000. -/
def advBehaviour : Behaviour := fun n => (if n % 2 = 0 then 7000 else 8000, fun _ => 0)

/-- A collaborator behaviour whose every detect call measures 6000 Hz and
whose n-th call fills the magnitudes array with the constant n. -/
noncomputable def cexBehaviour : Behaviour := fun n => (6000, fun _ => (n : ℝ))

/-- A concrete state whose eight magnitudes all equal 1: every Q1 is 1,
every Q2 is 0, every coefficient is 0. -/
noncomputable def stOne : State :=
  { afQ1 := fun _ => 1
    afQ2 := fun _ => 0
    afToneCoeff := fun _ => 0
    iAdcCentre := 0
    fBaseMagnitude := 0
    iCompensation := 0
    iRealFrequence := 0
    iSamplesCount := 128 }

/-! ## Loop characterization lemmas -/

/-- The ProcessSample loop over a duplicate-free index list: every listed
tone gets the Goertzel update computed from its own pre-call accumulators,
every other tone and every non-resonator field is untouched. -/
theorem processSample_foldl (sample : ℤ) (l : List (Fin TONES)) (hl : l.Nodup)
    (st : State) :
    ((l.foldl (processSampleTone sample) st).afToneCoeff = st.afToneCoeff
        ∧ (l.foldl (processSampleTone sample) st).iAdcCentre = st.iAdcCentre
        ∧ (l.foldl (processSampleTone sample) st).fBaseMagnitude = st.fBaseMagnitude
        ∧ (l.foldl (processSampleTone sample) st).iCompensation = st.iCompensation
        ∧ (l.foldl (processSampleTone sample) st).iRealFrequence = st.iRealFrequence
        ∧ (l.foldl (processSampleTone sample) st).iSamplesCount = st.iSamplesCount)
    ∧ (∀ j, j ∉ l → (l.foldl (processSampleTone sample) st).afQ1 j = st.afQ1 j
        ∧ (l.foldl (processSampleTone sample) st).afQ2 j = st.afQ2 j)
    ∧ (∀ j, j ∈ l →
        (l.foldl (processSampleTone sample) st).afQ1 j
          = st.afToneCoeff j * st.afQ1 j - st.afQ2 j
            + ((sample : ℝ) - (st.iAdcCentre : ℝ))
        ∧ (l.foldl (processSampleTone sample) st).afQ2 j = st.afQ1 j) := by
  induction l generalizing st with
  | nil => simp
  | cons i t ih =>
    obtain ⟨hi, ht⟩ := List.nodup_cons.mp hl
    obtain ⟨hfix, hout, hin⟩ := ih ht (processSampleTone sample st i)
    simp only [List.foldl_cons]
    refine ⟨?_, ?_, ?_⟩
    · exact ⟨hfix.1, hfix.2.1, hfix.2.2.1, hfix.2.2.2.1, hfix.2.2.2.2.1,
        hfix.2.2.2.2.2⟩
    · intro j hj
      obtain ⟨hji, hjt⟩ : j ≠ i ∧ j ∉ t := by
        simpa [List.mem_cons, not_or] using hj
      obtain ⟨h1, h2⟩ := hout j hjt
      rw [h1, h2]
      constructor
      · simp [processSampleTone, Function.update_noteq hji]
      · simp [processSampleTone, Function.update_noteq hji]
    · intro j hj
      rcases List.mem_cons.mp hj with hji | hjt
      · subst hji
        obtain ⟨h1, h2⟩ := hout j hi
        rw [h1, h2]
        constructor
        · simp [processSampleTone]
        · simp [processSampleTone]
      · have hji : j ≠ i := fun h => hi (h ▸ hjt)
        obtain ⟨h1, h2⟩ := hin j hjt
        rw [h1, h2]
        constructor
        · simp [processSampleTone, Function.update_noteq hji]
        · simp [processSampleTone, Function.update_noteq hji]

/-- The ResetDTMF loop over an index list zeroes exactly the listed tones
and changes nothing else. -/
theorem reset_foldl (l : List (Fin TONES)) (st : State) :
    ((l.foldl resetTone st).afToneCoeff = st.afToneCoeff
        ∧ (l.foldl resetTone st).iAdcCentre = st.iAdcCentre
        ∧ (l.foldl resetTone st).fBaseMagnitude = st.fBaseMagnitude
        ∧ (l.foldl resetTone st).iCompensation = st.iCompensation
        ∧ (l.foldl resetTone st).iRealFrequence = st.iRealFrequence
        ∧ (l.foldl resetTone st).iSamplesCount = st.iSamplesCount)
    ∧ (∀ j, (l.foldl resetTone st).afQ1 j = if j ∈ l then 0 else st.afQ1 j)
    ∧ (∀ j, (l.foldl resetTone st).afQ2 j = if j ∈ l then 0 else st.afQ2 j) := by
  induction l generalizing st with
  | nil => simp
  | cons i t ih =>
    obtain ⟨hfix, h1, h2⟩ := ih (resetTone st i)
    simp only [List.foldl_cons]
    refine ⟨⟨hfix.1, hfix.2.1, hfix.2.2.1, hfix.2.2.2.1, hfix.2.2.2.2.1,
        hfix.2.2.2.2.2⟩, ?_, ?_⟩
    · intro j
      rw [h1 j]
      by_cases hjt : j ∈ t
      · simp [hjt, List.mem_cons]
      · by_cases hji : j = i
        · subst hji
          simp [hjt, resetTone]
        · simp [hjt, hji, resetTone, Function.update_noteq hji]
    · intro j
      rw [h2 j]
      by_cases hjt : j ∈ t
      · simp [hjt, List.mem_cons]
      · by_cases hji : j = i
        · subst hji
          simp [hjt, resetTone]
        · simp [hjt, hji, resetTone, Function.update_noteq hji]

/-- The magnitude loop over an index list: slot j of the array holds the
line-165 expression for every listed j, the running sum collects the listed
magnitudes, and neither depends on the initial maxMag accumulator. -/
theorem magLoop_foldl (st : State) (l : List (Fin TONES))
    (acc : (Fin TONES → ℝ) × ℝ × ℝ) :
    (∀ j, (l.foldl (measureTone st) acc).1 j
        = if j ∈ l then dtmfMagnitude st j else acc.1 j)
    ∧ (l.foldl (measureTone st) acc).2.1
        = acc.2.1 + (l.map (dtmfMagnitude st)).sum := by
  induction l generalizing acc with
  | nil => simp
  | cons i t ih =>
    obtain ⟨h1, h2⟩ := ih (measureTone st acc i)
    simp only [List.foldl_cons]
    constructor
    · intro j
      rw [h1 j]
      by_cases hjt : j ∈ t
      · simp [hjt, List.mem_cons]
      · by_cases hji : j = i
        · subst hji
          simp [hjt, measureTone]
        · simp [hjt, hji, measureTone, Function.update_noteq hji]
    · rw [h2]
      simp [measureTone, add_assoc]

/-- The bitmask loop keeps its accumulator whenever no listed magnitude
exceeds the threshold. -/
theorem maskLoop_of_none (dtmfMag : Fin TONES → ℝ) (magnitude : ℝ)
    (l : List (Fin TONES)) (d : ℕ) (h : ∀ i ∈ l, ¬ dtmfMag i > magnitude) :
    l.foldl (fun d i => if dtmfMag i > magnitude then d ||| (1 <<< (i : ℕ)) else d) d
      = d := by
  induction l generalizing d with
  | nil => rfl
  | cons i t ih =>
    simp only [List.foldl_cons, if_neg (h i (List.mem_cons_self i t))]
    exact ih d (fun j hj => h j (List.mem_cons_of_mem i hj))

/-! ## Claim theorems -/

/-- C1: one ProcessSample call replaces, for every tone i, the accumulators
by Q1 := coeff[i] * Q1[i] - Q2[i] + (sample - adcCenter) and Q2 := old
Q1[i], each computed from tone i of the pre-call state alone, and leaves
every other field of the object unchanged. -/
theorem ProcessSample_spec (st : State) (sample : ℤ) (i : Fin TONES) :
    (ProcessSample st sample).afQ1 i
        = st.afToneCoeff i * st.afQ1 i - st.afQ2 i
          + ((sample : ℝ) - (st.iAdcCentre : ℝ))
    ∧ (ProcessSample st sample).afQ2 i = st.afQ1 i
    ∧ (ProcessSample st sample).afToneCoeff = st.afToneCoeff
    ∧ (ProcessSample st sample).iAdcCentre = st.iAdcCentre
    ∧ (ProcessSample st sample).fBaseMagnitude = st.fBaseMagnitude
    ∧ (ProcessSample st sample).iCompensation = st.iCompensation
    ∧ (ProcessSample st sample).iRealFrequence = st.iRealFrequence
    ∧ (ProcessSample st sample).iSamplesCount = st.iSamplesCount := by
  obtain ⟨hfix, hout, hin⟩ := processSample_foldl sample (List.finRange TONES)
    (List.nodup_finRange TONES) st
  obtain ⟨e1, e2⟩ := hin i (List.mem_finRange i)
  exact ⟨e1, e2, hfix.1, hfix.2.1, hfix.2.2.1, hfix.2.2.2.1, hfix.2.2.2.2.1,
    hfix.2.2.2.2.2⟩

/-- C2: the magnitudes calculateMeasurement computes and, when a buffer is
supplied, copies out are exactly sqrt of Q1[i]^2 + Q2[i]^2 - coeff[i] *
Q1[i] * Q2[i] for every tone i; with no buffer nothing is copied. -/
theorem calculateMeasurement_magnitudes (st : State) (magnitude : ℝ) :
    (calculateMeasurement st true magnitude).pRet
        = some (fun i => Real.sqrt (st.afQ1 i ^ 2 + st.afQ2 i ^ 2
            - st.afToneCoeff i * st.afQ1 i * st.afQ2 i))
    ∧ (calculateMeasurement st false magnitude).pRet = none := by
  constructor
  · show some (magLoop st).1 = _
    obtain ⟨h1, _⟩ := magLoop_foldl st (List.finRange TONES)
      (fun _ => 0, 0, st.fBaseMagnitude * 3)
    refine congrArg some (funext fun i => ?_)
    rw [show (magLoop st).1 i
        = if i ∈ List.finRange TONES then dtmfMagnitude st i else 0 from h1 i]
    simp only [List.mem_finRange, if_true, dtmfMagnitude]
    ring_nf
  · rfl

/-- C3: with all eight magnitudes equal to one value M greater than 0 and a
negative threshold argument, the threshold resolves to twice M and the
returned bitmask is zero. -/
theorem autoThreshold_neutral (st : State) (M : ℝ) (wantMags : Bool)
    (magnitude : ℝ) (hneg : magnitude < 0) (hM : 0 < M)
    (hmag : ∀ i, dtmfMagnitude st i = M) :
    resolveThreshold st magnitude = 2 * M
    ∧ (calculateMeasurement st wantMags magnitude).dtmf = 0 := by
  obtain ⟨h1, h2⟩ := magLoop_foldl st (List.finRange TONES)
    (fun _ => 0, 0, st.fBaseMagnitude * 3)
  have hmid : (magLoop st).2.1 = (TONES : ℝ) * M := by
    rw [show (magLoop st).2.1 = _ from h2]
    have : (List.finRange TONES).map (dtmfMagnitude st)
        = List.replicate TONES M := by
      rw [show dtmfMagnitude st = fun _ => M from funext hmag]
      simp [List.map_const]
    rw [this]
    simp [List.sum_replicate, nsmul_eq_mul]
  have hthr : resolveThreshold st magnitude = 2 * M := by
    rw [resolveThreshold, if_pos hneg, hmid]
    have h8 : (TONES : ℝ) ≠ 0 := by norm_num [TONES]
    field_simp
    ring
  refine ⟨hthr, ?_⟩
  show maskLoop (magLoop st).1 (resolveThreshold st magnitude) = 0
  rw [hthr]
  apply maskLoop_of_none
  intro i _
  rw [show (magLoop st).1 i
      = if i ∈ List.finRange TONES then dtmfMagnitude st i else 0 from h1 i]
  simp only [List.mem_finRange, if_true, hmag i]
  intro hgt
  linarith

/-- C3 witness: on the concrete state with every Q1 equal to 1, every Q2 and
coefficient 0, all eight magnitudes are 1, and an auto-threshold call
resolves the threshold to 2 and detects nothing. -/
theorem autoThreshold_neutral_witness :
    resolveThreshold stOne (-1) = 2 * 1
    ∧ (calculateMeasurement stOne true (-1)).dtmf = 0 :=
  autoThreshold_neutral stOne 1 true (-1) (by norm_num) (by norm_num)
    (fun i => by simp [dtmfMagnitude, stOne])

/-- C9: every calculateMeasurement call (and so every detect call) leaves
both accumulators of every tone at zero, whatever block was processed, and
a second reset keeps the state unchanged at zero. -/
theorem calculateMeasurement_resets (st : State) (wantMags : Bool)
    (magnitude : ℝ) :
    (∀ i, (calculateMeasurement st wantMags magnitude).state.afQ1 i = 0
        ∧ (calculateMeasurement st wantMags magnitude).state.afQ2 i = 0)
    ∧ ResetDTMF (ResetDTMF st) = ResetDTMF st := by
  have hzero : ∀ s : State, (∀ i, (ResetDTMF s).afQ1 i = 0)
      ∧ ∀ i, (ResetDTMF s).afQ2 i = 0 := by
    intro s
    obtain ⟨_, h1, h2⟩ := reset_foldl (List.finRange TONES) s
    exact ⟨fun i => by simpa using h1 i, fun i => by simpa using h2 i⟩
  constructor
  · intro i
    exact ⟨(hzero st).1 i, (hzero st).2 i⟩
  · obtain ⟨hfix, h1, h2⟩ := reset_foldl (List.finRange TONES) (ResetDTMF st)
    ext i
    · rw [show (ResetDTMF (ResetDTMF st)).afQ1 i = _ from h1 i]
      simp [(hzero st).1 i]
    · rw [show (ResetDTMF (ResetDTMF st)).afQ2 i = _ from h2 i]
      simp [(hzero st).2 i]
    · exact congrFun hfix.1 i
    · exact hfix.2.1
    · exact hfix.2.2.1
    · exact hfix.2.2.2.1
    · exact hfix.2.2.2.2.1
    · exact hfix.2.2.2.2.2

/-- C10: the returned bitmask and the resolved threshold are identical
across any two values of fBaseMagnitude, for every resonator state,
coefficient array, buffer flag and threshold argument: the 3 times
fBaseMagnitude bound feeding maxMag never influences the decision. -/
theorem baseMagnitude_noninterference (st : State) (b1 b2 : ℝ)
    (wantMags : Bool) (magnitude : ℝ) :
    (calculateMeasurement { st with fBaseMagnitude := b1 } wantMags magnitude).dtmf
      = (calculateMeasurement { st with fBaseMagnitude := b2 } wantMags magnitude).dtmf
    ∧ resolveThreshold { st with fBaseMagnitude := b1 } magnitude
      = resolveThreshold { st with fBaseMagnitude := b2 } magnitude := by
  have harr : ∀ b : ℝ,
      (magLoop { st with fBaseMagnitude := b }).1 = dtmfMagnitude st := by
    intro b
    obtain ⟨h1, _⟩ := magLoop_foldl { st with fBaseMagnitude := b }
      (List.finRange TONES) (fun _ => 0, 0, b * 3)
    funext i
    rw [show (magLoop { st with fBaseMagnitude := b }).1 i = _ from h1 i]
    simp [dtmfMagnitude]
  have hmid : ∀ b : ℝ,
      (magLoop { st with fBaseMagnitude := b }).2.1
        = ((List.finRange TONES).map (dtmfMagnitude st)).sum := by
    intro b
    obtain ⟨_, h2⟩ := magLoop_foldl { st with fBaseMagnitude := b }
      (List.finRange TONES) (fun _ => 0, 0, b * 3)
    rw [show (magLoop { st with fBaseMagnitude := b }).2.1 = _ from h2]
    show (0 : ℝ) + ((List.finRange TONES).map (dtmfMagnitude st)).sum = _
    rw [zero_add]
  have hthr : resolveThreshold { st with fBaseMagnitude := b1 } magnitude
      = resolveThreshold { st with fBaseMagnitude := b2 } magnitude := by
    rw [resolveThreshold, resolveThreshold, hmid b1, hmid b2]
  refine ⟨?_, hthr⟩
  show maskLoop (magLoop { st with fBaseMagnitude := b1 }).1 _
      = maskLoop (magLoop { st with fBaseMagnitude := b2 }).1 _
  rw [harr b1, harr b2, hthr]

/-- Summing a magnitude array with the line-74 loop shape. -/
theorem foldl_add_map (m : Fin TONES → ℝ) (l : List (Fin TONES)) (a : ℝ) :
    l.foldl (fun acc j => acc + m j) a = a + (l.map m).sum := by
  induction l generalizing a with
  | nil => simp
  | cons i t ih => simp [ih, add_assoc]

/-- The begin average of a constant magnitude array is that constant. -/
theorem magAverage_const (c : ℝ) : magAverage (fun _ => c) = c := by
  rw [magAverage, foldl_add_map]
  simp only [List.map_const', List.length_finRange, List.sum_replicate,
    nsmul_eq_mul, zero_add]
  norm_num [TONES]

/-- Under the alternating behaviour the exit test never succeeds: whenever
the frequency measured before a call differs from the one the call
measures, any amount of fuel runs out. -/
theorem advBehaviour_loops (fuel : ℕ) : ∀ (n : ℕ) (comp : ℤ) (oldFreq : ℕ),
    oldFreq ≠ (advBehaviour n).1 →
    beginLoopRun 6000 advBehaviour fuel n comp oldFreq = none := by
  induction fuel with
  | zero => intro n comp oldFreq _; rfl
  | succ fuel ih =>
    intro n comp oldFreq hne
    rw [beginLoopRun, if_neg hne]
    apply ih
    rcases Nat.mod_two_eq_zero_or_one n with h | h
    · have h1 : (n + 1) % 2 = 1 := by omega
      simp [advBehaviour, h, h1]
    · have h1 : (n + 1) % 2 = 0 := by omega
      simp [advBehaviour, h, h1]

/-- A successful exit of the begin loop carries the frequency and the
magnitudes of the exit call; the exit call is at or after the start, and
its frequency equals the previous measurement (the incoming one when the
loop exits on its first call). -/
theorem beginLoopRun_exit (maxFrequence : ℕ) (b : Behaviour) :
    ∀ (fuel n0 : ℕ) (comp : ℤ) (oldFreq n : ℕ) (c : ℤ) (f : ℕ)
      (m : Fin TONES → ℝ),
      beginLoopRun maxFrequence b fuel n0 comp oldFreq = some (n, c, f, m) →
      m = (b n).2 ∧ f = (b n).1 ∧ n0 ≤ n
      ∧ ((n = n0 ∧ oldFreq = f) ∨ (n0 < n ∧ (b (n - 1)).1 = f)) := by
  intro fuel
  induction fuel with
  | zero =>
    intro n0 comp oldFreq n c f m h
    exact absurd h (by rw [beginLoopRun]; exact Option.noConfusion)
  | succ fuel ih =>
    intro n0 comp oldFreq n c f m h
    rw [beginLoopRun] at h
    by_cases he : oldFreq = (b n0).1
    · rw [if_pos he] at h
      simp only [Option.some.injEq, Prod.mk.injEq] at h
      obtain ⟨rfl, _, rfl, rfl⟩ := h
      exact ⟨rfl, rfl, le_refl n0, Or.inl ⟨rfl, he⟩⟩
    · rw [if_neg he] at h
      obtain ⟨hm, hf, hle, hcase⟩ := ih (n0 + 1) _ _ n c f m h
      refine ⟨hm, hf, by omega, Or.inr ?_⟩
      rcases hcase with ⟨heq, hof⟩ | ⟨hlt, hprev⟩
      · refine ⟨by omega, ?_⟩
        have hn : n - 1 = n0 := by omega
        rw [hn]
        exact hof
      · exact ⟨by omega, hprev⟩

/-- C4: at a zero elapsed time both rate computations of the source divide
by zero with no guard: the warm-up expression of line 57 and the
detect-block expression of line 108 produce a non-finite value (none), so
no finite frequency exists and none of this is surfaced as a failure. -/
theorem division_unguarded :
    warmupSampleFrequence 0 = none ∧ detectRealFrequence 0 128 = none := by
  constructor <;> rfl

/-- C5: the do-while rate-adjustment loop of begin has no iteration cap:
under the collaborator behaviour measuring alternating frequencies 7000 and
8000, the loop runs out every fuel bound from every starting compensation,
so its iteration count is unbounded and no calibration failure is
reported. -/
theorem beginLoop_no_cap (fuel : ℕ) (comp : ℤ) :
    beginLoopRun 6000 advBehaviour fuel 0 comp 0 = none := by
  apply advBehaviour_loops
  simp [advBehaviour]

/-- C6 counterexample: begin called with maxFrequence 1000 while the warm-up
measures 2000 Hz seeds a compensation delay of 500 microseconds, outside
the interval [0, 200]. -/
theorem compensation_seed_escape :
    beginCompSeed 1000 2000 = 500 ∧ ¬ beginCompSeed 1000 2000 ≤ 200 := by
  have h : beginCompSeed 1000 2000 = 500 := by
    rw [beginCompSeed, if_pos (by norm_num)]
    rw [show ((1000 / ((1000 : ℕ) : ℚ)) - (1000 / (2000 : ℚ))) * 1000
        = ((500 : ℤ) : ℚ) by norm_num]
    exact Int.floor_intCast 500
  exact ⟨h, by rw [h]; norm_num⟩

/-- C6 amended: every increment and decrement of the rate-adjustment loop
keeps the compensation delay inside [0, 200], and the warm-up seed lands
inside [0, 200] whenever maxFrequence is at least 5000 (so in particular
for the default 6000); for smaller maxFrequence the seed can escape. -/
theorem compensation_bounds (maxFrequence : ℕ) (sampleFrequence : ℚ)
    (freq : ℕ) (comp : ℤ) (hmax : 5000 ≤ maxFrequence)
    (h0 : 0 ≤ comp) (h200 : comp ≤ 200) :
    (0 ≤ beginCompSeed maxFrequence sampleFrequence
      ∧ beginCompSeed maxFrequence sampleFrequence ≤ 200)
    ∧ (0 ≤ beginLoopStep maxFrequence freq comp
      ∧ beginLoopStep maxFrequence freq comp ≤ 200) := by
  constructor
  · rw [beginCompSeed]
    split_ifs with hlt
    · have hmQ : (5000 : ℚ) ≤ (maxFrequence : ℚ) := by exact_mod_cast hmax
      have hm0 : (0 : ℚ) < (maxFrequence : ℚ) := by linarith
      have hs0 : (0 : ℚ) < sampleFrequence := lt_trans hm0 hlt
      have hBle : 1000 / sampleFrequence ≤ 1000 / (maxFrequence : ℚ) := by
        gcongr
      have hB0 : (0 : ℚ) ≤ 1000 / sampleFrequence := by positivity
      have hA : 1000 / (maxFrequence : ℚ) ≤ 1000 / 5000 := by gcongr
      constructor
      · apply Int.floor_nonneg.mpr
        nlinarith
      · have hv : ((1000 / (maxFrequence : ℚ)) - (1000 / sampleFrequence)) * 1000
            ≤ ((200 : ℤ) : ℚ) := by
          push_cast
          nlinarith
        calc ⌊((1000 / (maxFrequence : ℚ)) - (1000 / sampleFrequence)) * 1000⌋
            ≤ ⌊((200 : ℤ) : ℚ)⌋ := Int.floor_le_floor hv
          _ = 200 := Int.floor_intCast 200
    · exact ⟨le_refl 0, by norm_num⟩
  · simp only [beginLoopStep]
    split_ifs <;> omega

/-- C6 amended witness: with the default maxFrequence 6000, a measured
warm-up rate of 7000 Hz and a mid-range compensation of 10, both the seed
and one loop adjustment stay inside [0, 200]. -/
theorem compensation_bounds_witness :
    (0 ≤ beginCompSeed 6000 7000 ∧ beginCompSeed 6000 7000 ≤ 200)
    ∧ (0 ≤ beginLoopStep 6000 7000 10 ∧ beginLoopStep 6000 7000 10 ≤ 200) :=
  compensation_bounds 6000 7000 7000 10 (by norm_num) (by norm_num)
    (by norm_num)

/-- C7 counterexample: under the behaviour whose every call measures 6000 Hz
and whose n-th call fills the magnitudes with the constant n, the loop
exits at call index 1 and begin averages that call into fBaseMagnitude,
giving 1; the average of a further post-convergence block would be 2. -/
theorem baseMagnitude_not_extra_block :
    beginBaseMagnitude 6000 cexBehaviour 5 0 0 = some 1
    ∧ magAverage ((cexBehaviour 2).2) = 2 ∧ (1 : ℝ) ≠ 2 := by
  refine ⟨?_, ?_, by norm_num⟩
  · have h : beginLoopRun 6000 cexBehaviour 5 0 0 0
        = some (1, 0, 6000, (cexBehaviour 1).2) := by rfl
    rw [beginBaseMagnitude, h]
    have hc : (cexBehaviour 1).2 = fun _ => (1 : ℝ) := by
      funext i
      simp [cexBehaviour]
    show some (magAverage ((cexBehaviour 1).2)) = some 1
    rw [hc, magAverage_const]
  · have hc : (cexBehaviour 2).2 = fun _ => (2 : ℝ) := by
      funext i
      simp [cexBehaviour]
    rw [hc, magAverage_const]

/-- C7 amended: when the rate-adjustment loop of begin exits, fBaseMagnitude
is the average of the TONES magnitudes produced by the final loop iteration
itself, the call that hit the fixed point with the previous measurement; no
additional detection block runs between loop exit and the averaging. -/
theorem beginBaseMagnitude_final_iteration (maxFrequence : ℕ) (b : Behaviour)
    (fuel : ℕ) (comp0 : ℤ) (r0 n : ℕ) (c : ℤ) (f : ℕ) (m : Fin TONES → ℝ)
    (h : beginLoopRun maxFrequence b fuel 0 comp0 r0 = some (n, c, f, m)) :
    m = (b n).2 ∧ f = (b n).1
    ∧ beginBaseMagnitude maxFrequence b fuel comp0 r0
        = some (magAverage ((b n).2))
    ∧ ((n = 0 ∧ r0 = f) ∨ (0 < n ∧ (b (n - 1)).1 = f)) := by
  obtain ⟨hm, hf, _, hcase⟩ :=
    beginLoopRun_exit maxFrequence b fuel 0 comp0 r0 n c f m h
  refine ⟨hm, hf, ?_, hcase⟩
  rw [beginBaseMagnitude, h]
  show some (magAverage m) = some (magAverage ((b n).2))
  rw [hm]

/-- C7 amended witness: under the 6000-Hz behaviour with call-indexed
magnitudes, the loop exits at call 1 and fBaseMagnitude averages exactly
that call. -/
theorem beginBaseMagnitude_final_iteration_witness :
    (cexBehaviour 1).2 = (cexBehaviour 1).2 ∧ (6000 : ℕ) = (cexBehaviour 1).1
    ∧ beginBaseMagnitude 6000 cexBehaviour 5 0 0
        = some (magAverage ((cexBehaviour 1).2))
    ∧ (((1 : ℕ) = 0 ∧ (0 : ℕ) = 6000) ∨ (0 < 1 ∧ (cexBehaviour 0).1 = 6000)) :=
  beginBaseMagnitude_final_iteration 6000 cexBehaviour 5 0 0 1 0 6000
    ((cexBehaviour 1).2) (by rfl)

set_option maxRecDepth 4000 in
/-- C8: every pattern of the symbol table maps back to its parallel
character through tone2char, and every 8-bit pattern outside the table maps
to the character 0. -/
theorem tone2char_table :
    (∀ j : Fin (TONES * 2),
        tone2char (DTMF_MAP.getD (j : ℕ) 0) = DTMF_CHAR.getD (j : ℕ) (Char.ofNat 0))
    ∧ ∀ b : Fin 256, (b : ℕ) ∉ DTMF_MAP → tone2char (b : ℕ) = Char.ofNat 0 := by
  decide

end PhoneDTMF
